import Mathlib

/-!
Verification of the site-wide crawl-and-aggregate engine of the seo-agent
repository (src/site-crawler.ts, src/types.ts).

The TypeScript source is shallowly embedded: pure helper functions become
Lean functions, the batch crawl loop becomes explicit state passing over a
`CrawlState` with fuel, and the platform `URL` / `URLSearchParams` builtins
are modelled by an explicit parser over character lists (ASCII fragment; no
percent-decoding, IDNA, or path-segment normalization, which the repository
never relies on).  JavaScript `Math.round` is modelled on rationals as
`floor (x + 1/2)`, which agrees with it on all values arising here.
-/

/-- ASCII lower-casing of one character, modelling the effect of JavaScript
`toLowerCase` on the ASCII fragment used throughout the crawler. -/
def charLower (c : Char) : Char :=
  if 65 ≤ c.toNat ∧ c.toNat ≤ 90 then Char.ofNat (c.toNat + 32) else c

/-- Lower-case a string character-wise (JS `String.prototype.toLowerCase`). -/
def toLowerStr (s : String) : String := String.mk (s.data.map charLower)

/-- Split a character list at the first occurrence of `c`; returns the part
before it and, when `c` occurs, the part after it. -/
def splitAtFirst (c : Char) : List Char → List Char × Option (List Char)
  | [] => ([], none)
  | x :: xs =>
    if x = c then ([], some xs)
    else
      let p := splitAtFirst c xs
      (x :: p.1, p.2)

/-- Helper for `splitOnChar`: `acc` holds the current field, reversed. -/
def splitOnCharAux (c : Char) : List Char → List Char → List (List Char)
  | [], acc => [acc.reverse]
  | x :: xs, acc =>
    if x = c then acc.reverse :: splitOnCharAux c xs []
    else splitOnCharAux c xs (x :: acc)

/-- Split a character list on every occurrence of `c` (JS `String.split`). -/
def splitOnChar (c : Char) (l : List Char) : List (List Char) :=
  splitOnCharAux c l []

/-- Remove leading and trailing JS-whitespace from a character list
(JS `String.prototype.trim` on the ASCII fragment). -/
def trimL (l : List Char) : List Char :=
  ((l.dropWhile Char.isWhitespace).reverse.dropWhile Char.isWhitespace).reverse

/-- Search for `pat` as a contiguous sublist; on success return the remainder
after its first occurrence. -/
def subAfter (pat : List Char) : List Char → Option (List Char)
  | [] => if pat.isEmpty then some [] else none
  | c :: t =>
    if pat.isPrefixOf (c :: t) then some ((c :: t).drop pat.length)
    else subAfter pat t

/-- Substring containment (JS `String.prototype.includes`). -/
def containsSub (pat l : List Char) : Bool := (subAfter pat l).isSome

/-- Last character is a slash. Used to model the regex test `/\/$/`. -/
def endsWithSlash (s : String) : Bool := s.data.getLast? = some '/'

/-- Drop a single trailing slash (JS `s.replace(/\/$/, '')`). -/
def stripTrailingSlash (s : String) : String :=
  if endsWithSlash s then String.mk s.data.dropLast else s

/-- The components of a parsed URL that site-crawler.ts reads from the
platform `URL` object: `protocol` (with trailing colon), `hostname`
(without port or userinfo), `pathname` (always starting with a slash), and
the decoded `searchParams` pairs in document order.  The fragment is
dropped by the parser, exactly as `URL` keeps it out of these fields. -/
structure URLRec where
  protocol : String
  hostname : String
  pathname : String
  searchParams : List (String × String)
  deriving DecidableEq, Repr

/-- Parse a query string (already split off after the first question mark)
into key/value pairs, modelling `URLSearchParams` iteration: fields split
on the ampersand, empty fields skipped, each field split at its first
equals sign, a missing value read as the empty string. -/
def parseQuery (l : List Char) : List (String × String) :=
  (splitOnChar '&' l).filterMap fun piece =>
    if piece.isEmpty then none
    else
      let p := splitAtFirst '=' piece
      some (String.mk p.1, String.mk (p.2.getD []))

/-- Characters allowed in a URL scheme. -/
def isSchemeChar (c : Char) : Bool :=
  c.isAlpha || c.isDigit || c = '+' || c = '-' || c = '.'

/-- Model of the platform `new URL(s)` constructor on absolute URLs of the
form `scheme://[userinfo@]host[:port][/path][?query][#fragment]`, returning
`none` where `new URL` throws.  Simplifications (unused by the repository):
no percent-decoding, no IPv6 host brackets, no path-segment normalization,
host case preserved (the crawler lower-cases downstream itself). -/
def parseURL (s : String) : Option URLRec :=
  let beforeHash := (splitAtFirst '#' s.data).1
  match splitAtFirst ':' beforeHash with
  | (_, none) => none
  | (scheme, some rest) =>
    if scheme.isEmpty || !scheme.all isSchemeChar then none
    else if !(['/', '/'].isPrefixOf rest) then none
    else
      let afterSlashes := rest.drop 2
      let hp := splitAtFirst '?' afterSlashes
      let hostpath := hp.1
      let query := hp.2.getD []
      let hpSplit := splitAtFirst '/' hostpath
      let authority := hpSplit.1
      let hostport :=
        match splitAtFirst '@' authority with
        | (_, some afterAt) => afterAt
        | (h, none) => h
      let host := (splitAtFirst ':' hostport).1
      if host.isEmpty then none
      else
        let pathname :=
          match hpSplit.2 with
          | none => "/"
          | some p => String.mk ('/' :: p)
        some ⟨String.mk (scheme ++ [':']), String.mk host, pathname, parseQuery query⟩

/-- The tracking query parameters stripped by `normalizeUrl`
(site-crawler.ts line 358). -/
def trackingParams : List String :=
  ["utm_source", "utm_medium", "utm_campaign", "ref", "fbclid", "gclid"]

/-- Model of `URLSearchParams.set`: replace the value of an existing key in place,
otherwise append the pair at the end. -/
def setParam : List (String × String) → String → String → List (String × String)
  | [], k, v => [(k, v)]
  | kv :: rest, k, v =>
    if kv.1 = k then (k, v) :: rest else kv :: setParam rest k v

/-- The `importantParams` accumulation of `normalizeUrl`: iterate the
parsed search params in order and `set` every key that is not a tracking
parameter. -/
def importantOf (ps : List (String × String)) : List (String × String) :=
  ps.foldl (fun acc kv => if kv.1 ∈ trackingParams then acc else setParam acc kv.1 kv.2) []

/-- Serialize pairs back to a query string (`URLSearchParams.toString`,
without percent-encoding). -/
def toQueryString (ps : List (String × String)) : String :=
  String.intercalate "&" (ps.map fun kv => kv.1 ++ "=" ++ kv.2)

/-- The body of `normalizeUrl` after a successful parse: scheme, host and
path with one trailing slash dropped, then the surviving query params, the
whole string lower-cased. -/
def normalizeFromParts (p : URLRec) : String :=
  let base := stripTrailingSlash (p.protocol ++ "//" ++ p.hostname ++ p.pathname)
  let qs := toQueryString (importantOf p.searchParams)
  let n := if qs = "" then base else base ++ "?" ++ qs
  toLowerStr n

/-- Embedding of `normalizeUrl` (site-crawler.ts lines 349-372): normalize a URL for
frontier deduplication; on an unparseable input (`new URL` throws) the
catch branch returns the input lower-cased. -/
def normalizeUrl (url : String) : String :=
  match parseURL url with
  | some p => normalizeFromParts p
  | none => toLowerStr url

theorem strMk_data (s : String) : String.mk s.data = s := rfl

theorem strData_append (a b : String) : (a ++ b).data = a.data ++ b.data := by
  cases a; cases b; rfl

theorem stripTrailingSlash_append_slash (a : String) :
    stripTrailingSlash (a ++ "/") = a := by
  unfold stripTrailingSlash endsWithSlash
  rw [strData_append]
  have hd : ("/" : String).data = ['/'] := rfl
  rw [hd]
  simp [List.getLast?_concat, List.dropLast_concat, strMk_data]

theorem stripTrailingSlash_of_no_slash (a : String) (h : endsWithSlash a = false) :
    stripTrailingSlash a = a := by
  simp [stripTrailingSlash, h]

theorem endsWithSlash_append (a b : String) (hb : b.data ≠ []) :
    endsWithSlash (a ++ b) = endsWithSlash b := by
  unfold endsWithSlash
  rw [strData_append, List.getLast?_append]
  cases hg : b.data.getLast? with
  | none => exact absurd (List.getLast?_eq_none_iff.mp hg) hb
  | some c => rfl

theorem data_ne_nil_of_ne_empty (s : String) (h : s ≠ "") : s.data ≠ [] := by
  intro hd
  apply h
  cases s
  simp at hd
  simp [hd]

theorem importantOf_append_tracking (ps : List (String × String)) (t tv : String)
    (ht : t ∈ trackingParams) :
    importantOf (ps ++ [(t, tv)]) = importantOf ps := by
  unfold importantOf
  rw [List.foldl_append]
  simp [ht]

/-- Claim C9 (normalization equivalence): whenever `v` parses as `u` does
except for an appended tracking query parameter, except for a trailing
slash appended to a path that did not already end in one, or identically
(as happens when only a fragment is added, since the parser drops the
fragment), `normalizeUrl` sends `u` and `v` to the same string, so all such
variants share one frontier identity. -/
theorem normalizeUrl_variant_equiv (u v : String) (p : URLRec) (t tv : String)
    (hu : parseURL u = some p)
    (hvar :
      (t ∈ trackingParams ∧
        parseURL v = some { p with searchParams := p.searchParams ++ [(t, tv)] }) ∨
      (p.pathname ≠ "" ∧ endsWithSlash p.pathname = false ∧
        parseURL v = some { p with pathname := p.pathname ++ "/" }) ∨
      parseURL v = some p) :
    normalizeUrl v = normalizeUrl u := by
  unfold normalizeUrl
  rw [hu]
  rcases hvar with ⟨ht, hv⟩ | ⟨hne, hsl, hv⟩ | hv <;> rw [hv]
  · unfold normalizeFromParts
    simp only
    rw [importantOf_append_tracking p.searchParams t tv ht]
  · unfold normalizeFromParts
    simp only
    have hassoc :
        p.protocol ++ "//" ++ p.hostname ++ (p.pathname ++ "/") =
          (p.protocol ++ "//" ++ p.hostname ++ p.pathname) ++ "/" := by
      have := String.append_assoc (p.protocol ++ "//" ++ p.hostname) p.pathname "/"
      rw [this]
    rw [hassoc, stripTrailingSlash_append_slash,
      stripTrailingSlash_of_no_slash _ (by
        rw [endsWithSlash_append _ _ (data_ne_nil_of_ne_empty _ hne)]
        exact hsl)]

/-- Witness for C9: a concrete URL, its tracking-parameter variant, its
trailing-slash variant, and its fragment variant all normalize alike. -/
theorem normalizeUrl_variant_equiv_witness :
    parseURL "http://Ex.com/p?x=1" =
      some ⟨"http:", "Ex.com", "/p", [("x", "1")]⟩ ∧
    normalizeUrl "http://Ex.com/p?x=1&ref=z" = normalizeUrl "http://Ex.com/p?x=1" ∧
    normalizeUrl "http://Ex.com/p/?x=1" = normalizeUrl "http://Ex.com/p?x=1" ∧
    normalizeUrl "http://Ex.com/p?x=1#sec" = normalizeUrl "http://Ex.com/p?x=1" :=
  ⟨by decide,
   normalizeUrl_variant_equiv _ _ ⟨"http:", "Ex.com", "/p", [("x", "1")]⟩ "ref" "z"
     (by decide) (Or.inl ⟨by decide, by decide⟩),
   normalizeUrl_variant_equiv _ _ ⟨"http:", "Ex.com", "/p", [("x", "1")]⟩ "ref" "z"
     (by decide) (Or.inr (Or.inl ⟨by decide, by decide, by decide⟩)),
   normalizeUrl_variant_equiv _ _ ⟨"http:", "Ex.com", "/p", [("x", "1")]⟩ "ref" "z"
     (by decide) (Or.inr (Or.inr (by decide)))⟩

/-- Claim C10 (normalization totality): `normalizeUrl` is defined on every
string; on an input that does not parse as a URL it returns the input
lower-cased, so frontier deduplication is defined and case-insensitive
even for malformed URLs. -/
theorem normalizeUrl_unparseable (u : String) (h : parseURL u = none) :
    normalizeUrl u = toLowerStr u ∧
    ∀ v, parseURL v = none → toLowerStr v = toLowerStr u →
      normalizeUrl v = normalizeUrl u := by
  constructor
  · unfold normalizeUrl
    rw [h]
  · intro v hv hlow
    unfold normalizeUrl
    rw [h, hv]
    exact hlow

/-- Witness for C10 at the malformed input string. -/
theorem normalizeUrl_unparseable_witness :
    parseURL "Not A URL" = none ∧
    normalizeUrl "Not A URL" = toLowerStr "Not A URL" ∧
    normalizeUrl "NOT a url" = normalizeUrl "Not A URL" :=
  ⟨by decide,
   (normalizeUrl_unparseable "Not A URL" (by decide)).1,
   (normalizeUrl_unparseable "Not A URL" (by decide)).2 "NOT a url" (by decide) (by decide)⟩

/-- Characters of the lowercase marker that opens a user-agent line. -/
def uaMarker : List Char := "user-agent:".data

/-- Characters of the lowercase marker that opens a disallow line. -/
def disMarker : List Char := "disallow:".data

/-- Scanner of `parseRobotsTxtDisallow` (site-crawler.ts lines 215-237):
walk the lines keeping the flag `relevant` that records whether the most
recent `User-agent:` block matches `*` or an agent containing "bot";
collect the nonempty paths of `Disallow:` lines seen while relevant.  The
`Disallow:` prefix is stripped case-insensitively from the trimmed
original-case line, as `replace(/^disallow:\s*/i, '')` does. -/
def robotsScan : List (List Char) → Bool → List String
  | [], _ => []
  | line :: rest, relevant =>
    let t := trimL line
    let tl := t.map charLower
    if uaMarker.isPrefixOf tl then
      let agent := trimL (tl.drop 11)
      robotsScan rest (agent = ['*'] || containsSub "bot".data agent)
    else if relevant && disMarker.isPrefixOf tl then
      let path := trimL ((t.drop 9).dropWhile Char.isWhitespace)
      if path.isEmpty then robotsScan rest relevant
      else String.mk path :: robotsScan rest relevant
    else robotsScan rest relevant

/-- Embedding of `parseRobotsTxtDisallow`: `null` robots.txt yields no
rules; otherwise the text is split on newlines and scanned with the
user-agent flag initially off. -/
def parseRobotsTxtDisallow : Option String → List String
  | none => []
  | some txt => robotsScan (splitOnChar '\n' txt.data) false

/-- Wildcard member of `isUrlDisallowed`: the JS code turns `*` into `.*`
and anchors the regex at the start of the path, so the rule matches iff its
first literal segment is a prefix of the path and the remaining segments
occur afterwards in order.  Pattern characters other than `*` are treated
literally (no rule in scope uses other regex metacharacters). -/
def wildcardSegsMatch : List (List Char) → List Char → Bool
  | [], _ => true
  | seg :: segs, cs =>
    match subAfter seg cs with
    | none => false
    | some cs' => wildcardSegsMatch segs cs'

/-- Test a robots rule containing `*` against a URL path
(`new RegExp('^' + disallowed.replace(/\*/g, '.*')).test(path)`). -/
def wildcardMatch (d path : String) : Bool :=
  match (splitOnChar '*' d.data).map id with
  | [] => true
  | seg :: segs =>
    seg.isPrefixOf path.data && wildcardSegsMatch segs (path.data.drop seg.length)

/-- Embedding of `isUrlDisallowed` (site-crawler.ts lines 242-267): an
unparseable URL is allowed; otherwise the URL is disallowed if some rule is
the bare slash, is a prefix of the path, or contains a wildcard that
matches the path. -/
def isUrlDisallowed (url : String) (disallowedPaths : List String) : Bool :=
  match parseURL url with
  | none => false
  | some u =>
    disallowedPaths.any fun d =>
      d = "/" || d.data.isPrefixOf u.pathname.data ||
        (d.data.contains '*' && wildcardMatch d u.pathname)

/-- Decision mirror of `robotsScan`: does the line list contain, under a
relevant user-agent block, a `Disallow:` line with a nonempty path? -/
def robotsScanHasRule : List (List Char) → Bool → Bool
  | [], _ => false
  | line :: rest, relevant =>
    let t := trimL line
    let tl := t.map charLower
    if uaMarker.isPrefixOf tl then
      let agent := trimL (tl.drop 11)
      robotsScanHasRule rest (agent = ['*'] || containsSub "bot".data agent)
    else if relevant && disMarker.isPrefixOf tl then
      let path := trimL ((t.drop 9).dropWhile Char.isWhitespace)
      if path.isEmpty then robotsScanHasRule rest relevant
      else true
    else robotsScanHasRule rest relevant

/-- Condition of claim C7 on a robots.txt text: it holds exactly when no
`Disallow:` line with a nonempty path sits under a `User-agent:` block
matching `*` or containing "bot". -/
def hasRelevantDisallow (txt : String) : Bool :=
  robotsScanHasRule (splitOnChar '\n' txt.data) false

theorem robotsScan_nil_iff (lines : List (List Char)) :
    ∀ relevant, robotsScan lines relevant = [] ↔ robotsScanHasRule lines relevant = false := by
  induction lines with
  | nil => intro relevant; simp [robotsScan, robotsScanHasRule]
  | cons line rest ih =>
    intro relevant
    unfold robotsScan robotsScanHasRule
    cases h1 : uaMarker.isPrefixOf ((trimL line).map charLower) with
    | true =>
      simp only [h1, if_true]
      exact ih _
    | false =>
      cases h2 : relevant && disMarker.isPrefixOf ((trimL line).map charLower) with
      | true =>
        cases h3 : (trimL (((trimL line).drop 9).dropWhile Char.isWhitespace)).isEmpty with
        | true =>
          simp only [h1, h2, h3]
          simp only [Bool.false_eq_true, if_false, if_true]
          exact ih _
        | false =>
          simp only [h1, h2, h3]
          simp only [Bool.false_eq_true, if_false, if_true]
          simp
      | false =>
        simp only [h1, h2]
        simp only [Bool.false_eq_true, if_false]
        exact ih _

/-- Claim C7 (robots fail-open): when robots.txt is absent, or contains no
`Disallow:` rule under a user-agent block matching `*` or containing
"bot", the parsed rule set is empty and `isUrlDisallowed` returns `false`
for every URL — every URL is allowed. -/
theorem robots_fail_open (o : Option String)
    (h : o = none ∨ ∃ t, o = some t ∧ hasRelevantDisallow t = false) :
    parseRobotsTxtDisallow o = [] ∧
    ∀ url, isUrlDisallowed url (parseRobotsTxtDisallow o) = false := by
  have hempty : parseRobotsTxtDisallow o = [] := by
    rcases h with h | ⟨t, ht, hf⟩
    · rw [h]; rfl
    · rw [ht]
      unfold parseRobotsTxtDisallow
      exact (robotsScan_nil_iff _ _).mpr hf
  refine ⟨hempty, fun url => ?_⟩
  rw [hempty]
  unfold isUrlDisallowed
  cases parseURL url <;> simp

/-- Witness for C7: a robots.txt whose only disallow sits under a
non-matching agent block parses to the empty rule set and allows a URL. -/
theorem robots_fail_open_witness :
    hasRelevantDisallow "User-agent: quux\nDisallow: /x\nUser-agent: *\nAllow: /" = false ∧
    parseRobotsTxtDisallow
      (some "User-agent: quux\nDisallow: /x\nUser-agent: *\nAllow: /") = [] ∧
    isUrlDisallowed "http://a.b/x/y"
      (parseRobotsTxtDisallow
        (some "User-agent: quux\nDisallow: /x\nUser-agent: *\nAllow: /")) = false :=
  ⟨by decide,
   (robots_fail_open _ (Or.inr ⟨_, rfl, by decide⟩)).1,
   (robots_fail_open _ (Or.inr ⟨_, rfl, by decide⟩)).2 "http://a.b/x/y"⟩

/-- Issue status values of a per-page SEO check (types.ts `SEOIssue`). -/
inductive IssueStatus
  | pass
  | fail
  | warning
  | info
  deriving DecidableEq, Repr

/-- Issue priority values (types.ts `Priority`). -/
inductive Priority
  | high
  | medium
  | low
  deriving DecidableEq, Repr

/-- Fields of a per-page `SEOIssue` read by the aggregator.  The purely
presentational fields `description`, `currentValue` and `referenceUrl` are
omitted; no aggregation decision depends on them. -/
structure SEOIssue where
  category : String
  checkName : String
  status : IssueStatus
  priority : Priority
  recommendation : String
  deriving DecidableEq, Repr

/-- An example entry `{url, value}` accumulated for an issue group. -/
structure PageRef where
  url : String
  value : Option String
  deriving DecidableEq, Repr

/-- Fields of a `SiteWideIssue` (types.ts lines 398-412) read by the
claims; the generated `description` string is omitted as presentational. -/
structure SiteWideIssue where
  category : String
  checkName : String
  issueType : String
  affectedPages : Nat
  totalPages : Nat
  percentage : ℤ
  priority : Priority
  recommendation : String
  examples : List PageRef
  deriving DecidableEq, Repr

/-- Model of JavaScript `Math.round` on the rationals: round half toward
positive infinity. -/
def jsRound (q : ℚ) : ℤ := ⌊q + 1/2⌋

theorem jsRound_eval (n : ℤ) (d : ℕ) (q : ℚ) (hq : q + 1/2 = (n : ℚ) / (d : ℚ)) :
    jsRound q = n / (d : ℤ) := by
  unfold jsRound
  rw [hq, Rat.floor_intCast_div_natCast]

/-- Emission of one aggregated group as a `SiteWideIssue`
(the loop body of `generateSiteWideIssues`, types.ts lines 567-598):
compute the rounded percentage, emit unless the group is a universal pass,
classify site-wide at fifty percent, escalate priority by prevalence. -/
def mkSiteWideIssue (totalPages : Nat) (g : SEOIssue × List PageRef) :
    Option SiteWideIssue :=
  let issue := g.1
  let pages := g.2
  let percentage := jsRound ((pages.length : ℚ) / (totalPages : ℚ) * 100)
  if issue.status ≠ IssueStatus.pass ∨ pages.length < totalPages then
    some
      { category := issue.category
        checkName := issue.checkName
        issueType := if 50 ≤ percentage then "site-wide" else "page-specific"
        affectedPages := pages.length
        totalPages := totalPages
        percentage := percentage
        priority :=
          if 80 ≤ percentage ∧ issue.status = IssueStatus.fail then Priority.high
          else if 50 ≤ percentage ∧ issue.status = IssueStatus.warning then Priority.medium
          else issue.priority
        recommendation := issue.recommendation
        examples := pages.take 5 }
  else none

/-- Rank order used by the final sort: high before medium before low. -/
def priorityOrder : Priority → Nat
  | Priority.high => 0
  | Priority.medium => 1
  | Priority.low => 2

/-- Comparator of the final sort (types.ts lines 601-609): `a` stays before
`b` when its priority ranks strictly earlier, or ranks equal with
percentage at least as large (JS stable sort keeps ties in order). -/
def swBefore (a b : SiteWideIssue) : Bool :=
  decide (priorityOrder a.priority < priorityOrder b.priority) ||
    (decide (priorityOrder a.priority = priorityOrder b.priority) &&
      decide (b.percentage ≤ a.percentage))

/-- Stable insertion of `x` after every already-placed element that ranks
before or ties with it. -/
def insertByRank (x : SiteWideIssue) : List SiteWideIssue → List SiteWideIssue
  | [] => [x]
  | y :: ys => if swBefore y x then y :: insertByRank x ys else x :: y :: ys

/-- Stable sort by `swBefore` (insertion sort, processing left to right). -/
def sortByRank (l : List SiteWideIssue) : List SiteWideIssue :=
  l.foldl (fun acc x => insertByRank x acc) []

/-- Embedding of `generateSiteWideIssues`: emit every group (insertion
order of the grouping map becomes list order) and sort by priority rank
then percentage descending. -/
def generateSiteWideIssues (groups : List (SEOIssue × List PageRef))
    (totalPages : Nat) : List SiteWideIssue :=
  sortByRank (groups.filterMap (mkSiteWideIssue totalPages))

theorem mem_insertByRank (x a : SiteWideIssue) (l : List SiteWideIssue) :
    a ∈ insertByRank x l ↔ a = x ∨ a ∈ l := by
  induction l with
  | nil => simp [insertByRank]
  | cons y ys ih =>
    unfold insertByRank
    by_cases h : swBefore y x = true <;> simp [h, ih] <;> tauto

theorem mem_sortByRank (a : SiteWideIssue) (l : List SiteWideIssue) :
    a ∈ sortByRank l ↔ a ∈ l := by
  have key : ∀ (l acc : List SiteWideIssue),
      (a ∈ l.foldl (fun acc x => insertByRank x acc) acc ↔ a ∈ acc ∨ a ∈ l) := by
    intro l
    induction l with
    | nil => intro acc; simp
    | cons x xs ih =>
      intro acc
      simp only [List.foldl_cons]
      rw [ih]
      rw [mem_insertByRank]
      simp
      tauto
  unfold sortByRank
  rw [key l []]
  simp

/-- A per-page fail issue used by the concrete aggregation examples. -/
def failIssueX : SEOIssue := ⟨"basic", "X7", IssueStatus.fail, Priority.medium, "r"⟩

/-- Seven affected pages out of ten. -/
def sevenRefs : List PageRef :=
  [⟨"u1", none⟩, ⟨"u2", none⟩, ⟨"u3", none⟩, ⟨"u4", none⟩,
   ⟨"u5", none⟩, ⟨"u6", none⟩, ⟨"u7", none⟩]

/-- The site-wide issue emitted for `failIssueX` over ten pages. -/
def swX : SiteWideIssue :=
  ⟨"basic", "X7", "site-wide", 7, 10, 70, Priority.medium, "r",
   [⟨"u1", none⟩, ⟨"u2", none⟩, ⟨"u3", none⟩, ⟨"u4", none⟩, ⟨"u5", none⟩]⟩

/-- Claim C6 (aggregation percentage and classification): an aggregated
group over `T` analyzed pages is emitted exactly unless it is a universal
pass, and the emitted issue carries the rounded percentage, the
fifty-percent `site-wide` classification, and membership in the generated
site-wide issue list. -/
theorem siteWide_aggregation (T : Nat) (g : SEOIssue × List PageRef)
    (hle : g.2.length ≤ T) :
    ((mkSiteWideIssue T g).isSome ↔
      ¬(g.1.status = IssueStatus.pass ∧ g.2.length = T)) ∧
    ∀ sw, mkSiteWideIssue T g = some sw →
      sw.affectedPages = g.2.length ∧
      sw.totalPages = T ∧
      sw.percentage = jsRound ((g.2.length : ℚ) / (T : ℚ) * 100) ∧
      (sw.issueType = "site-wide" ↔ 50 ≤ sw.percentage) ∧
      (sw.issueType = "page-specific" ↔ sw.percentage < 50) ∧
      ∀ groups, g ∈ groups → sw ∈ generateSiteWideIssues groups T := by
  constructor
  · simp only [mkSiteWideIssue]
    by_cases hc : g.1.status ≠ IssueStatus.pass ∨ g.2.length < T
    · rw [if_pos hc]
      simp only [Option.isSome_some, true_iff]
      rintro ⟨hpass, hlen⟩
      rcases hc with h | h
      · exact h hpass
      · omega
    · rw [if_neg hc]
      simp only [Option.isSome_none, Bool.false_eq_true, false_iff, not_not]
      push_neg at hc
      exact ⟨hc.1, by omega⟩
  · intro sw h
    simp only [mkSiteWideIssue] at h
    by_cases hc : g.1.status ≠ IssueStatus.pass ∨ g.2.length < T
    · rw [if_pos hc] at h
      injection h with h1
      subst h1
      refine ⟨rfl, rfl, rfl, ?_, ?_, ?_⟩
      · by_cases h50 : (50 : ℤ) ≤ jsRound ((g.2.length : ℚ) / (T : ℚ) * 100) <;>
          simp [h50] <;> omega
      · by_cases h50 : (50 : ℤ) ≤ jsRound ((g.2.length : ℚ) / (T : ℚ) * 100) <;>
          simp [h50] <;> omega
      · intro groups hg
        unfold generateSiteWideIssues
        rw [mem_sortByRank]
        exact List.mem_filterMap.mpr
          ⟨g, hg, by simp only [mkSiteWideIssue]; rw [if_pos hc]⟩
    · rw [if_neg hc] at h
      exact absurd h (by simp)

/-- Witness for C6: seven of ten pages failing check X7 yield an emitted
issue with `affectedPages = 7`, `totalPages = 10`, `percentage = 70`,
classified `site-wide`, present in the generated list. -/
theorem siteWide_aggregation_witness :
    mkSiteWideIssue 10 (failIssueX, sevenRefs) = some swX ∧
    swX.affectedPages = 7 ∧ swX.totalPages = 10 ∧ swX.percentage = 70 ∧
    swX.issueType = "site-wide" ∧
    swX ∈ generateSiteWideIssues [(failIssueX, sevenRefs)] 10 := by
  have hmk : mkSiteWideIssue 10 (failIssueX, sevenRefs) = some swX := by
    simp only [mkSiteWideIssue]
    rw [if_pos (by left; decide)]
    have hp :
        jsRound (((failIssueX, sevenRefs).2.length : ℚ) / ((10 : ℕ) : ℚ) * 100) = 70 := by
      rw [show (((failIssueX, sevenRefs).2.length : ℚ)) = (7 : ℚ) by norm_num [sevenRefs]]
      rw [jsRound_eval 141 2 _ (by norm_num)]
      decide
    rw [hp]
    decide
  refine ⟨hmk, by decide, by decide, by decide, by decide, ?_⟩
  exact ((siteWide_aggregation 10 (failIssueX, sevenRefs) (by decide)).2 swX
    hmk).2.2.2.2.2 [(failIssueX, sevenRefs)] (by simp)

/-- A per-page warning issue whose base priority is high, as produced for
example by the broken-links and SSL checks of the analyzers. -/
def warnHighIssue : SEOIssue := ⟨"basic", "W", IssueStatus.warning, Priority.high, "fix"⟩

/-- One affected page out of one. -/
def oneRef : List PageRef := [⟨"http://a.b/", none⟩]

/-- Counterexample to claim C4 as stated: escalation does not only raise.
For a warning-status group whose underlying issue priority is high and
which affects every page (percentage 100 ≥ 50), the emitted priority is
medium — a strictly later rank than the underlying high priority. -/
theorem siteWide_priority_not_only_raises :
    (mkSiteWideIssue 1 (warnHighIssue, oneRef)).map SiteWideIssue.priority =
      some Priority.medium ∧
    warnHighIssue.priority = Priority.high ∧
    priorityOrder Priority.high < priorityOrder Priority.medium := by
  have hp : jsRound (((warnHighIssue, oneRef).2.length : ℚ) / ((1 : ℕ) : ℚ) * 100) = 100 := by
    rw [show (((warnHighIssue, oneRef).2.length : ℚ)) = (1 : ℚ) by norm_num [oneRef]]
    rw [jsRound_eval 201 2 _ (by norm_num)]
    decide
  refine ⟨?_, by decide, by decide⟩
  simp only [mkSiteWideIssue]
  rw [if_pos (by left; decide), hp]
  decide

/-- Claim C4, amended (priority assignment formula): the emitted priority
is high for a fail at rounded percentage ≥ 80, medium for a warning at
rounded percentage ≥ 50 — even when that lowers a high base priority — and
otherwise the priority of the underlying per-page issue. -/
theorem siteWide_priority_formula (T : Nat) (g : SEOIssue × List PageRef)
    (sw : SiteWideIssue) (h : mkSiteWideIssue T g = some sw) :
    sw.priority =
      if 80 ≤ sw.percentage ∧ g.1.status = IssueStatus.fail then Priority.high
      else if 50 ≤ sw.percentage ∧ g.1.status = IssueStatus.warning then Priority.medium
      else g.1.priority := by
  simp only [mkSiteWideIssue] at h
  split at h
  · injection h with h1
    subst h1
    rfl
  · exact absurd h (by simp)

/-- A per-page warning issue with base priority low. -/
def warnLowIssue : SEOIssue := ⟨"basic", "W9", IssueStatus.warning, Priority.low, "r"⟩

/-- Nine affected pages out of ten. -/
def nineRefs : List PageRef :=
  [⟨"v1", none⟩, ⟨"v2", none⟩, ⟨"v3", none⟩, ⟨"v4", none⟩, ⟨"v5", none⟩,
   ⟨"v6", none⟩, ⟨"v7", none⟩, ⟨"v8", none⟩, ⟨"v9", none⟩]

/-- The site-wide issue emitted for `warnLowIssue` over ten pages. -/
def swW9 : SiteWideIssue :=
  ⟨"basic", "W9", "site-wide", 9, 10, 90, Priority.medium, "r",
   [⟨"v1", none⟩, ⟨"v2", none⟩, ⟨"v3", none⟩, ⟨"v4", none⟩, ⟨"v5", none⟩]⟩

/-- Witness for the amended C4: a low-priority warning affecting 9 of 10
pages (rounded percentage 90) is emitted with priority medium. -/
theorem siteWide_priority_formula_witness :
    mkSiteWideIssue 10 (warnLowIssue, nineRefs) = some swW9 ∧
    warnLowIssue.priority = Priority.low ∧
    swW9.priority = Priority.medium := by
  have hp : jsRound (((warnLowIssue, nineRefs).2.length : ℚ) / ((10 : ℕ) : ℚ) * 100) = 90 := by
    rw [show (((warnLowIssue, nineRefs).2.length : ℚ)) = (9 : ℚ) by norm_num [nineRefs]]
    rw [jsRound_eval 181 2 _ (by norm_num)]
    decide
  have hmk : mkSiteWideIssue 10 (warnLowIssue, nineRefs) = some swW9 := by
    simp only [mkSiteWideIssue]
    rw [if_pos (by left; decide), hp]
    decide
  refine ⟨hmk, by decide, ?_⟩
  rw [siteWide_priority_formula 10 (warnLowIssue, nineRefs) swW9 hmk]
  decide

/-- Embedding of `calculateCategoryScore` (types.ts lines 664-673): a
category with no site-wide issues scores 100; otherwise each issue
contributes 1 when its percentage is exactly 100 and `1 - percentage/100`
otherwise, and the score is the rounded mean times 100. -/
def calculateCategoryScore (issues : List SiteWideIssue) : ℤ :=
  if issues.length = 0 then 100
  else
    let passPercentages := issues.map fun i =>
      if i.percentage = 100 then (1 : ℚ) else 1 - (i.percentage : ℚ) / 100
    jsRound ((passPercentages.foldl (· + ·) 0 / (issues.length : ℚ)) * 100)

/-- Category-score formula as claim C3 states it: every issue contributes
`1 - percentage/100`, with no special case at percentage 100. -/
def categoryScoreClaim (issues : List SiteWideIssue) : ℤ :=
  if issues.length = 0 then 100
  else
    jsRound
      (((issues.map fun i => 1 - (i.percentage : ℚ) / 100).sum / (issues.length : ℚ)) * 100)

/-- Per-issue contribution actually implemented by the code: full credit
at percentage exactly 100. -/
def categoryContrib (i : SiteWideIssue) : ℚ :=
  if i.percentage = 100 then (1 : ℚ) else 1 - (i.percentage : ℚ) / 100

theorem foldl_add_eq_sum (l : List ℚ) : ∀ a, l.foldl (· + ·) a = a + l.sum := by
  induction l with
  | nil => intro a; simp
  | cons x xs ih =>
    intro a
    simp only [List.foldl_cons, List.sum_cons]
    rw [ih (a + x)]
    ring

/-- A per-page fail issue affecting both of two pages. -/
def failAllIssue : SEOIssue := ⟨"basic", "X", IssueStatus.fail, Priority.high, "fix"⟩

/-- Two affected pages out of two. -/
def twoRefs : List PageRef := [⟨"http://a.b/1", none⟩, ⟨"http://a.b/2", none⟩]

/-- The site-wide issue emitted for `failAllIssue` over two pages:
percentage 100, escalated priority high. -/
def swFail100 : SiteWideIssue :=
  ⟨"basic", "X", "site-wide", 2, 2, 100, Priority.high, "fix", twoRefs⟩

/-- Counterexample to claim C3 as stated: for a realizable site-wide issue
at percentage 100 (a fail affecting both of two pages), the code's
category score is 100, while the claimed formula
`round(mean(1 - percentage/100) * 100)` gives 0 — the code special-cases
percentage 100 to contribute full credit, not zero. -/
theorem calculateCategoryScore_counterexample :
    mkSiteWideIssue 2 (failAllIssue, twoRefs) = some swFail100 ∧
    calculateCategoryScore [swFail100] = 100 ∧
    categoryScoreClaim [swFail100] = 0 ∧
    calculateCategoryScore [swFail100] ≠ categoryScoreClaim [swFail100] := by
  have hp : jsRound (((failAllIssue, twoRefs).2.length : ℚ) / ((2 : ℕ) : ℚ) * 100) = 100 := by
    rw [show (((failAllIssue, twoRefs).2.length : ℚ)) = (2 : ℚ) by norm_num [twoRefs]]
    rw [jsRound_eval 201 2 _ (by norm_num)]
    decide
  have hmk : mkSiteWideIssue 2 (failAllIssue, twoRefs) = some swFail100 := by
    simp only [mkSiteWideIssue]
    rw [if_pos (by left; decide), hp]
    decide
  have hcode : calculateCategoryScore [swFail100] = 100 := by
    simp only [calculateCategoryScore, List.length_cons, List.length_nil, List.map_cons,
      List.map_nil, List.foldl_cons, List.foldl_nil]
    rw [if_neg (by decide)]
    norm_num [swFail100]
    rw [jsRound_eval 201 2 _ (by norm_num)]
    decide
  have hclaim : categoryScoreClaim [swFail100] = 0 := by
    simp only [categoryScoreClaim, List.length_cons, List.length_nil, List.map_cons,
      List.map_nil, List.sum_cons, List.sum_nil]
    rw [if_neg (by decide)]
    norm_num [swFail100]
    rw [jsRound_eval 1 2 _ (by norm_num)]
    decide
  refine ⟨hmk, hcode, hclaim, ?_⟩
  rw [hcode, hclaim]
  decide

/-- Claim C3, amended: the category score is 100 for a category with no
site-wide issues, and otherwise `round(mean(f(percentage)) * 100)` where
`f(p) = 1` when `p = 100` and `f(p) = 1 - p/100` otherwise — an issue
affecting 100 percent of pages contributes full credit, not zero. -/
theorem calculateCategoryScore_eq (issues : List SiteWideIssue) :
    calculateCategoryScore issues =
      if issues.length = 0 then 100
      else jsRound (((issues.map categoryContrib).sum / (issues.length : ℚ)) * 100) := by
  unfold calculateCategoryScore
  by_cases h : issues.length = 0
  · rw [if_pos h, if_pos h]
  · rw [if_neg h, if_neg h]
    dsimp only
    have hfold :
        (issues.map fun i =>
            if i.percentage = 100 then (1 : ℚ)
            else 1 - (i.percentage : ℚ) / 100).foldl (· + ·) 0 =
          (issues.map categoryContrib).sum := by
      rw [foldl_add_eq_sum, zero_add]
      rfl
    rw [hfold]

/-- A link extracted from a fetched page: the fields of `LinkData` the
crawler reads. -/
structure LinkM where
  href : String
  isInternal : Bool
  deriving DecidableEq, Repr

/-- A crawled page: the fields of `CrawlResult` the site crawler reads.
`crawlPage` returns the requested URL in its `url` field. -/
structure CrawlResultM where
  url : String
  links : List LinkM
  deriving DecidableEq, Repr

/-- Strip a leading `www.` (helper of `isSameDomain`). -/
def stripWww (h : List Char) : List Char :=
  if "www.".data.isPrefixOf h then h.drop 4 else h

/-- Embedding of `isSameDomain` (site-crawler.ts lines 173-178). -/
def isSameDomain (hostname baseDomain : String) : Bool :=
  let hl := hostname.data.map charLower
  let bl := baseDomain.data.map charLower
  let a := stripWww hl
  let b := stripWww bl
  a = b || ('.' :: b).isSuffixOf hl

/-- The non-page asset extensions filtered out of discovered links. -/
def assetExtensions : List String :=
  ["jpg", "jpeg", "png", "gif", "svg", "webp", "ico", "css", "js", "pdf",
   "zip", "xml", "json", "woff", "woff2", "ttf", "eot"]

/-- Test of the asset-extension regex `\.(jpg|...)$` on a lowercased path. -/
def hasAssetExtension (path : List Char) : Bool :=
  assetExtensions.any fun e => ('.' :: e.data).isSuffixOf path

/-- Embedding of `extractInternalUrls` (site-crawler.ts lines 183-210):
keep internal links with nonempty href that parse, stay on the site, are
not page assets, and are not disallowed by robots rules. -/
def extractInternalUrls (r : CrawlResultM) (baseDomain : String)
    (disallowedPaths : List String) : List String :=
  r.links.filterMap fun link =>
    if link.isInternal && !(link.href == "") then
      match parseURL link.href with
      | none => none
      | some u =>
        if isSameDomain u.hostname baseDomain &&
            !hasAssetExtension (u.pathname.data.map charLower) &&
            !isUrlDisallowed link.href disallowedPaths then
          some link.href
        else none
    else none

/-- The crawl options `crawlSite` reads after defaulting: `maxPages`
(default 50), `concurrency` (default 3), `respectRobotsTxt` (default
true).  `delayMs`, `timeout` and `userAgent` only parameterize timing and
the page fetcher and are omitted. -/
structure SiteCrawlOptionsM where
  maxPages : Nat
  concurrency : Nat
  respectRobotsTxt : Bool
  deriving DecidableEq, Repr

/-- The external world of one crawl: the page fetcher (`none` models a
`crawlPage` failure), the robots.txt text, and the sitemap page URLs
(the output of `fetchSitemapUrls`, which already caps them at
`maxPages`; `crawlSite` slices again). -/
structure CrawlEnv where
  fetch : String → Option (List LinkM)
  robotsTxt : Option String
  sitemapUrls : List String

/-- The crawl loop state.  `queue`, `discovered`, `pages` and `failed`
mirror `urlQueue`, `discoveredUrls` (insertion-ordered, guarded inserts
keep it duplicate-free, so its length is the set size), `crawledPages` and
`failedPages`.  `fetched`, `cbTrace` (url, index, maxPages per
`onPageCrawled` invocation), `harvested` (link-discovered URLs pushed to
the queue) and `enq` (every URL ever pushed, seed and sitemap included)
are ghost observation traces that record events without affecting them. -/
structure CrawlState where
  queue : List String
  discovered : List String
  pages : List CrawlResultM
  failed : List String
  fetched : List String
  cbTrace : List (String × Nat × Nat)
  harvested : List String
  enq : List String
  deriving DecidableEq, Repr

/-- Abstracted `crawlPage`: a successful fetch yields a result carrying the
requested URL. -/
def crawlPageM (env : CrawlEnv) (url : String) : Option CrawlResultM :=
  (env.fetch url).map fun links => ⟨url, links⟩

/-- The successful results of one batch, in batch order: a URL is skipped
before fetch when robots-disallowed, and dropped when the fetch fails. -/
def batchSuccesses (env : CrawlEnv) (rules : List String)
    (batch : List String) : List CrawlResultM :=
  batch.filterMap fun u =>
    if isUrlDisallowed u rules then none else crawlPageM env u

/-- One frontier offer during link harvesting (site-crawler.ts lines
135-141): push only a URL whose normalization is unknown while the known
set is below twice `maxPages`. -/
def harvestStep (cfg : SiteCrawlOptionsM) (st : CrawlState) (u : String) : CrawlState :=
  if normalizeUrl u ∈ st.discovered then st
  else if st.discovered.length < cfg.maxPages * 2 then
    { st with
      discovered := st.discovered ++ [normalizeUrl u]
      queue := st.queue ++ [u]
      enq := st.enq ++ [u]
      harvested := st.harvested ++ [u] }
  else st

/-- Offer every internal link of a fetched page to the frontier. -/
def harvestLinks (cfg : SiteCrawlOptionsM) (rules : List String)
    (baseDomain : String) (st : CrawlState) (r : CrawlResultM) : CrawlState :=
  (extractInternalUrls r baseDomain rules).foldl (harvestStep cfg) st

/-- Record one successful result after the batch settles: push the page,
then harvest its links. -/
def recordSuccess (cfg : SiteCrawlOptionsM) (rules : List String)
    (baseDomain : String) (st : CrawlState) (r : CrawlResultM) : CrawlState :=
  harvestLinks cfg rules baseDomain { st with pages := st.pages ++ [r] } r

/-- One iteration of the crawl loop (site-crawler.ts lines 96-149): splice
a batch of up to `concurrency` (capped by the remaining budget) URLs, skip
disallowed ones, fetch the rest — every callback of the batch observes the
pre-batch crawled count, because `crawledPages` is only pushed after
`Promise.allSettled` resolves — then record successes and harvest links in
batch order. -/
def crawlStep (env : CrawlEnv) (cfg : SiteCrawlOptionsM) (rules : List String)
    (baseDomain : String) (s : CrawlState) : CrawlState :=
  let n := min cfg.concurrency (cfg.maxPages - s.pages.length)
  let batch := s.queue.take n
  let preCount := s.pages.length
  let succs := batchSuccesses env rules batch
  let s1 : CrawlState :=
    { s with
      queue := s.queue.drop n
      fetched := s.fetched ++ batch.filter (fun u => !isUrlDisallowed u rules)
      failed := s.failed ++ batch.filter
        (fun u => !isUrlDisallowed u rules && (env.fetch u).isNone)
      cbTrace := s.cbTrace ++ succs.map (fun r => (r.url, preCount + 1, cfg.maxPages)) }
  succs.foldl (recordSuccess cfg rules baseDomain) s1

/-- The crawl loop, fuel-indexed: run `crawlStep` while the queue is
nonempty and the crawled count is below budget.  Every terminating run of
the source loop is the value at any sufficiently large fuel; the safety
claims are proved for every fuel. -/
def crawlLoop (env : CrawlEnv) (cfg : SiteCrawlOptionsM) (rules : List String)
    (baseDomain : String) : Nat → CrawlState → CrawlState
  | 0, s => s
  | fuel + 1, s =>
    if s.queue ≠ [] ∧ s.pages.length < cfg.maxPages then
      crawlLoop env cfg rules baseDomain fuel (crawlStep env cfg rules baseDomain s)
    else s

/-- The state holding only the seeded start URL. -/
def seedState (startUrl : String) : CrawlState :=
  ⟨[startUrl], [normalizeUrl startUrl], [], [], [], [], [], [startUrl]⟩

/-- Seed one sitemap URL (site-crawler.ts lines 85-91): enqueue unless its
normalization is already known. -/
def addSitemapUrl (st : CrawlState) (u : String) : CrawlState :=
  if normalizeUrl u ∈ st.discovered then st
  else
    { st with
      discovered := st.discovered ++ [normalizeUrl u]
      queue := st.queue ++ [u]
      enq := st.enq ++ [u] }

/-- The initial frontier: the start URL, then up to `maxPages` sitemap
URLs. -/
def initState (startUrl : String) (sitemapUrls : List String) (maxPages : Nat) :
    CrawlState :=
  (sitemapUrls.take maxPages).foldl addSitemapUrl (seedState startUrl)

/-- The disallow rules of one crawl: robots.txt parsed when respected,
otherwise none. -/
def crawlRules (env : CrawlEnv) (cfg : SiteCrawlOptionsM) : List String :=
  if cfg.respectRobotsTxt then parseRobotsTxtDisallow env.robotsTxt else []

/-- Embedding of `crawlSite` down to its final loop state; `none` when the
start URL does not parse (`new URL(startUrl)` throws). -/
def crawlSiteState (env : CrawlEnv) (cfg : SiteCrawlOptionsM) (startUrl : String)
    (fuel : Nat) : Option CrawlState :=
  match parseURL startUrl with
  | none => none
  | some p =>
    some (crawlLoop env cfg (crawlRules env cfg) p.hostname fuel
      (initState startUrl env.sitemapUrls cfg.maxPages))

/-- The fields of the returned `SiteCrawlResult` the claims read
(`sitemapUrls`, `robotsTxt` and `crawlDuration` are pass-through data). -/
structure SiteCrawlResultM where
  baseUrl : String
  totalPages : Nat
  crawledPages : Nat
  failedPages : List String
  pages : List CrawlResultM
  deriving DecidableEq, Repr

/-- Build the returned result from the final loop state: `totalPages` is
the known-set size, `crawledPages` the page count. -/
def resultOfState (p : URLRec) (final : CrawlState) : SiteCrawlResultM :=
  ⟨p.protocol ++ "//" ++ p.hostname, final.discovered.length, final.pages.length,
   final.failed, final.pages⟩

/-- Embedding of `crawlSite` returning the result record. -/
def crawlSite (env : CrawlEnv) (cfg : SiteCrawlOptionsM) (startUrl : String)
    (fuel : Nat) : Option SiteCrawlResultM :=
  match parseURL startUrl with
  | none => none
  | some p => (crawlSiteState env cfg startUrl fuel).map (resultOfState p)

/-- Crawl-loop invariant, holding between batches.  `discovered` is
exactly the normalizations of all enqueued URLs, duplicate-free; the
normalizations of pages then pending queue entries are a sublist of it (in
discovery order); budget bounds; callback-trace alignment with pages; and
every fetched, failed, crawled or harvested URL passed the exclusion
filter. -/
structure CrawlInv (cfg : SiteCrawlOptionsM) (rules : List String)
    (s : CrawlState) : Prop where
  discEq : s.discovered = s.enq.map normalizeUrl
  discNodup : s.discovered.Nodup
  subl : (s.pages.map (fun r => normalizeUrl r.url) ++
    s.queue.map normalizeUrl).Sublist s.discovered
  pagesLe : s.pages.length ≤ cfg.maxPages
  discLe : s.discovered.length ≤ 2 * cfg.maxPages
  cbUrls : s.cbTrace.map (fun e => e.1) = s.pages.map (fun r => r.url)
  cbMax : ∀ e ∈ s.cbTrace, e.2.2 = cfg.maxPages
  cbSeq : cfg.concurrency = 1 →
    s.cbTrace.map (fun e => e.2.1) = List.range' 1 s.pages.length
  fetchedOk : ∀ u ∈ s.fetched, isUrlDisallowed u rules = false
  failedOk : ∀ u ∈ s.failed, isUrlDisallowed u rules = false
  pagesOk : ∀ r ∈ s.pages, isUrlDisallowed r.url rules = false
  harvestedOk : ∀ u ∈ s.harvested, isUrlDisallowed u rules = false

/-- Mid-batch invariant: like `CrawlInv` but with the batch's remaining
successful results `succs` still pending between the settled fetches and
the sequential record-and-harvest loop. -/
structure MidInv (cfg : SiteCrawlOptionsM) (rules : List String)
    (succs : List CrawlResultM) (s : CrawlState) : Prop where
  discEq : s.discovered = s.enq.map normalizeUrl
  discNodup : s.discovered.Nodup
  subl : (s.pages.map (fun r => normalizeUrl r.url) ++
    succs.map (fun r => normalizeUrl r.url) ++
    s.queue.map normalizeUrl).Sublist s.discovered
  pagesLe : s.pages.length + succs.length ≤ cfg.maxPages
  discLe : s.discovered.length ≤ 2 * cfg.maxPages
  cbUrls : s.cbTrace.map (fun e => e.1) =
    s.pages.map (fun r => r.url) ++ succs.map (fun r => r.url)
  cbMax : ∀ e ∈ s.cbTrace, e.2.2 = cfg.maxPages
  cbSeq : cfg.concurrency = 1 →
    s.cbTrace.map (fun e => e.2.1) = List.range' 1 (s.pages.length + succs.length)
  fetchedOk : ∀ u ∈ s.fetched, isUrlDisallowed u rules = false
  failedOk : ∀ u ∈ s.failed, isUrlDisallowed u rules = false
  pagesOk : ∀ r ∈ s.pages, isUrlDisallowed r.url rules = false
  succsOk : ∀ r ∈ succs, isUrlDisallowed r.url rules = false
  harvestedOk : ∀ u ∈ s.harvested, isUrlDisallowed u rules = false

theorem extract_allowed (r : CrawlResultM) (baseDomain : String)
    (rules : List String) :
    ∀ u ∈ extractInternalUrls r baseDomain rules, isUrlDisallowed u rules = false := by
  intro u hu
  unfold extractInternalUrls at hu
  rw [List.mem_filterMap] at hu
  obtain ⟨link, _, hf⟩ := hu
  split at hf
  · split at hf
    · simp at hf
    · split at hf
      · rename_i hcond
        injection hf with hf
        subst hf
        simp only [Bool.and_eq_true, Bool.not_eq_true'] at hcond
        exact hcond.2
      · simp at hf
  · simp at hf

theorem batchSuccesses_map_url_sublist (env : CrawlEnv) (rules : List String)
    (l : List String) :
    ((batchSuccesses env rules l).map (fun r => r.url)).Sublist l := by
  induction l with
  | nil => simp [batchSuccesses]
  | cons u t ih =>
    unfold batchSuccesses at ih ⊢
    simp only [List.filterMap_cons]
    by_cases hd : isUrlDisallowed u rules = true
    · simp only [hd, if_pos]
      exact ih.cons u
    · simp only [Bool.not_eq_true] at hd
      simp only [hd, Bool.false_eq_true, if_neg, not_false_iff]
      cases hf : crawlPageM env u with
      | none => exact ih.cons u
      | some r =>
        have hurl : r.url = u := by
          unfold crawlPageM at hf
          cases hfe : env.fetch u with
          | none => rw [hfe] at hf; simp at hf
          | some links =>
            rw [hfe] at hf
            simp at hf
            rw [← hf]
        simp only [List.map_cons, hurl]
        exact ih.cons₂ u

theorem batchSuccesses_allowed (env : CrawlEnv) (rules : List String)
    (l : List String) :
    ∀ r ∈ batchSuccesses env rules l, isUrlDisallowed r.url rules = false := by
  intro r hr
  unfold batchSuccesses at hr
  rw [List.mem_filterMap] at hr
  obtain ⟨u, _, hf⟩ := hr
  split at hf
  · simp at hf
  · rename_i hd
    unfold crawlPageM at hf
    cases hfe : env.fetch u with
    | none => rw [hfe] at hf; simp at hf
    | some links =>
      rw [hfe] at hf
      simp at hf
      rw [← hf]
      simpa using hd

theorem harvestStep_midInv (cfg : SiteCrawlOptionsM) (rules : List String)
    (succs : List CrawlResultM) (st : CrawlState) (u : String)
    (h : MidInv cfg rules succs st) (hu : isUrlDisallowed u rules = false) :
    MidInv cfg rules succs (harvestStep cfg st u) := by
  unfold harvestStep
  by_cases hmem : normalizeUrl u ∈ st.discovered
  · rw [if_pos hmem]
    exact h
  · rw [if_neg hmem]
    by_cases hcap : st.discovered.length < cfg.maxPages * 2
    · rw [if_pos hcap]
      refine ⟨?_, ?_, ?_, ?_, ?_, ?_, h.cbMax, ?_, h.fetchedOk, h.failedOk, h.pagesOk,
        h.succsOk, ?_⟩
      · simp only [List.map_append, List.map_cons, List.map_nil]
        rw [← h.discEq]
      · exact h.discNodup.append (List.nodup_singleton _)
          (fun a ha hb => by simp at hb; rw [hb] at ha; exact hmem ha)
      · have hs := h.subl.append (List.Sublist.refl [normalizeUrl u])
        simpa [List.append_assoc] using hs
      · simpa using h.pagesLe
      · simp only [List.length_append, List.length_cons, List.length_nil]
        omega
      · simpa using h.cbUrls
      · intro hc
        simpa using h.cbSeq hc
      · intro v hv
        simp only [List.mem_append, List.mem_cons, List.not_mem_nil, or_false] at hv
        rcases hv with hv | hv
        · exact h.harvestedOk v hv
        · rw [hv]
          exact hu
    · rw [if_neg hcap]
      exact h

theorem harvestLinks_midInv (cfg : SiteCrawlOptionsM) (rules : List String)
    (baseDomain : String) (succs : List CrawlResultM) (st : CrawlState)
    (r : CrawlResultM) (h : MidInv cfg rules succs st) :
    MidInv cfg rules succs (harvestLinks cfg rules baseDomain st r) := by
  unfold harvestLinks
  have key : ∀ (l : List String) (st : CrawlState),
      (∀ u ∈ l, isUrlDisallowed u rules = false) → MidInv cfg rules succs st →
      MidInv cfg rules succs (l.foldl (harvestStep cfg) st) := by
    intro l
    induction l with
    | nil => intro st _ hinv; exact hinv
    | cons x xs ih =>
      intro st hall hinv
      simp only [List.foldl_cons]
      exact ih _ (fun u hu => hall u (List.mem_cons_of_mem x hu))
        (harvestStep_midInv cfg rules succs st x hinv (hall x (List.mem_cons_self x xs)))
  exact key _ st (extract_allowed r baseDomain rules) h

theorem pushPage_midInv (cfg : SiteCrawlOptionsM) (rules : List String)
    (r : CrawlResultM) (succs : List CrawlResultM) (st : CrawlState)
    (h : MidInv cfg rules (r :: succs) st) :
    MidInv cfg rules succs { st with pages := st.pages ++ [r] } := by
  refine ⟨h.discEq, h.discNodup, ?_, ?_, h.discLe, ?_, h.cbMax, ?_, h.fetchedOk,
    h.failedOk, ?_, ?_, h.harvestedOk⟩
  · have hs := h.subl
    simp only [List.map_cons] at hs
    simpa [List.append_assoc] using hs
  · have := h.pagesLe
    simp only [List.length_cons] at this
    simp only [List.length_append, List.length_cons, List.length_nil]
    omega
  · have := h.cbUrls
    simp only [List.map_cons] at this
    simpa [List.append_assoc] using this
  · intro hc
    have := h.cbSeq hc
    simp only [List.length_cons] at this
    have hlen : ({ st with pages := st.pages ++ [r] } : CrawlState).pages.length + succs.length
        = st.pages.length + (succs.length + 1) := by
      simp only [List.length_append, List.length_cons, List.length_nil]
      omega
    rw [hlen]
    exact this
  · intro r' hr'
    simp only [List.mem_append, List.mem_cons, List.not_mem_nil, or_false] at hr'
    rcases hr' with hr' | hr'
    · exact h.pagesOk r' hr'
    · rw [hr']
      exact h.succsOk r (List.mem_cons_self r succs)
  · intro r' hr'
    exact h.succsOk r' (List.mem_cons_of_mem r hr')

theorem foldl_recordSuccess_inv (cfg : SiteCrawlOptionsM) (rules : List String)
    (baseDomain : String) :
    ∀ (succs : List CrawlResultM) (st : CrawlState), MidInv cfg rules succs st →
      CrawlInv cfg rules (succs.foldl (recordSuccess cfg rules baseDomain) st) := by
  intro succs
  induction succs with
  | nil =>
    intro st h
    exact ⟨h.discEq, h.discNodup, by simpa using h.subl, by simpa using h.pagesLe,
      h.discLe, by simpa using h.cbUrls, h.cbMax,
      fun hc => by simpa using h.cbSeq hc,
      h.fetchedOk, h.failedOk, h.pagesOk, h.harvestedOk⟩
  | cons r succs ih =>
    intro st h
    simp only [List.foldl_cons]
    unfold recordSuccess
    exact ih _ (harvestLinks_midInv cfg rules baseDomain succs _ r
      (pushPage_midInv cfg rules r succs st h))

theorem crawlStep_inv (env : CrawlEnv) (cfg : SiteCrawlOptionsM) (rules : List String)
    (baseDomain : String) (s : CrawlState) (h : CrawlInv cfg rules s)
    (hp : s.pages.length < cfg.maxPages) :
    CrawlInv cfg rules (crawlStep env cfg rules baseDomain s) := by
  unfold crawlStep
  dsimp only
  apply foldl_recordSuccess_inv
  have hqdecomp : s.queue =
      s.queue.take (min cfg.concurrency (cfg.maxPages - s.pages.length)) ++
      s.queue.drop (min cfg.concurrency (cfg.maxPages - s.pages.length)) :=
    (List.take_append_drop _ s.queue).symm
  have hsuccLen :
      (batchSuccesses env rules
        (s.queue.take (min cfg.concurrency (cfg.maxPages - s.pages.length)))).length ≤
      min cfg.concurrency (cfg.maxPages - s.pages.length) :=
    le_trans (List.length_filterMap_le _ _) (List.length_take_le _ _)
  refine ⟨h.discEq, h.discNodup, ?_, ?_, h.discLe, ?_, ?_, ?_, ?_, ?_, h.pagesOk, ?_, h.harvestedOk⟩
  · -- sublist: pages ++ pending successes ++ remaining queue, all normalized
    dsimp only
    have hsub1 : ((batchSuccesses env rules
        (s.queue.take (min cfg.concurrency (cfg.maxPages - s.pages.length)))).map
          (fun r => normalizeUrl r.url)).Sublist
        ((s.queue.take (min cfg.concurrency (cfg.maxPages - s.pages.length))).map
          normalizeUrl) := by
      have hbase := (batchSuccesses_map_url_sublist env rules
        (s.queue.take (min cfg.concurrency (cfg.maxPages - s.pages.length)))).map normalizeUrl
      rw [List.map_map] at hbase
      exact hbase
    have hmid := hsub1.append (List.Sublist.refl
      ((s.queue.drop (min cfg.concurrency (cfg.maxPages - s.pages.length))).map
        normalizeUrl))
    rw [← List.map_append, List.take_append_drop] at hmid
    have hfull := (List.Sublist.refl (s.pages.map (fun r => normalizeUrl r.url))).append hmid
    rw [List.append_assoc]
    exact hfull.trans h.subl
  · -- budget: pages plus batch successes stay within maxPages
    dsimp only
    have h3 : min cfg.concurrency (cfg.maxPages - s.pages.length) ≤
        cfg.maxPages - s.pages.length := Nat.min_le_right _ _
    omega
  · -- callback urls align with pages followed by pending successes
    dsimp only
    simp only [List.map_append, List.map_map]
    rw [h.cbUrls]
    rfl
  · -- every callback carries maxPages
    dsimp only
    intro e he
    simp only [List.mem_append] at he
    rcases he with he | he
    · exact h.cbMax e he
    · rw [List.mem_map] at he
      obtain ⟨r, _, hr⟩ := he
      rw [← hr]
  · -- sequential indices when concurrency is one
    dsimp only
    intro hc
    have hn1 : min cfg.concurrency (cfg.maxPages - s.pages.length) = 1 := by
      rw [hc]
      omega
    rw [hn1] at hsuccLen ⊢
    cases hsl : batchSuccesses env rules (s.queue.take 1) with
    | nil =>
      simp only [hsl, List.map_nil, List.append_nil, List.length_nil, Nat.add_zero]
      exact h.cbSeq hc
    | cons r rest =>
      have hrest : rest = [] := by
        rw [hsl] at hsuccLen
        simp only [List.length_cons] at hsuccLen
        exact List.eq_nil_of_length_eq_zero (by omega)
      subst hrest
      simp only [hsl, List.map_append, List.map_cons, List.map_nil, List.length_cons,
        List.length_nil]
      rw [h.cbSeq hc]
      have : List.range' 1 (s.pages.length + (0 + 1)) =
          List.range' 1 s.pages.length ++ [1 + 1 * s.pages.length] := by
        have := @List.range'_concat 1 1 s.pages.length
        simpa using this
      rw [this]
      simp [Nat.add_comm]
  · -- fetched urls passed the filter
    dsimp only
    intro u hu
    simp only [List.mem_append] at hu
    rcases hu with hu | hu
    · exact h.fetchedOk u hu
    · rw [List.mem_filter] at hu
      simpa using hu.2
  · -- failed urls passed the filter
    dsimp only
    intro u hu
    simp only [List.mem_append] at hu
    rcases hu with hu | hu
    · exact h.failedOk u hu
    · rw [List.mem_filter] at hu
      have := hu.2
      simp only [Bool.and_eq_true, Bool.not_eq_true'] at this
      exact this.1
  · -- pending successes passed the filter
    exact batchSuccesses_allowed env rules _

theorem crawlLoop_inv (env : CrawlEnv) (cfg : SiteCrawlOptionsM) (rules : List String)
    (baseDomain : String) :
    ∀ (fuel : Nat) (s : CrawlState), CrawlInv cfg rules s →
      CrawlInv cfg rules (crawlLoop env cfg rules baseDomain fuel s) := by
  intro fuel
  induction fuel with
  | zero => intro s h; exact h
  | succ f ih =>
    intro s h
    unfold crawlLoop
    by_cases hc : s.queue ≠ [] ∧ s.pages.length < cfg.maxPages
    · rw [if_pos hc]
      exact ih _ (crawlStep_inv env cfg rules baseDomain s h hc.2)
    · rw [if_neg hc]
      exact h

/-- Invariant of the seeding phase, before any page is crawled: the queue
normalizations equal the known set exactly and every activity trace is
empty. -/
structure SeedInv (s : CrawlState) : Prop where
  discEq : s.discovered = s.enq.map normalizeUrl
  discNodup : s.discovered.Nodup
  queueEq : s.queue.map normalizeUrl = s.discovered
  pagesNil : s.pages = []
  cbNil : s.cbTrace = []
  fetchedNil : s.fetched = []
  failedNil : s.failed = []
  harvestedNil : s.harvested = []

theorem seedState_seedInv (u : String) : SeedInv (seedState u) :=
  ⟨rfl, List.nodup_singleton _, rfl, rfl, rfl, rfl, rfl, rfl⟩

theorem addSitemapUrl_seedInv (st : CrawlState) (u : String) (h : SeedInv st) :
    SeedInv (addSitemapUrl st u) ∧
    (addSitemapUrl st u).discovered.length ≤ st.discovered.length + 1 := by
  unfold addSitemapUrl
  by_cases hm : normalizeUrl u ∈ st.discovered
  · rw [if_pos hm]
    exact ⟨h, by omega⟩
  · rw [if_neg hm]
    refine ⟨⟨?_, ?_, ?_, h.pagesNil, h.cbNil, h.fetchedNil, h.failedNil, h.harvestedNil⟩,
      by simp⟩
    · simp only [List.map_append, List.map_cons, List.map_nil]
      rw [← h.discEq]
    · exact h.discNodup.append (List.nodup_singleton _)
        (fun a ha hb => by simp at hb; rw [hb] at ha; exact hm ha)
    · simp only [List.map_append, List.map_cons, List.map_nil]
      rw [h.queueEq]

theorem foldl_addSitemapUrl_seedInv :
    ∀ (l : List String) (st : CrawlState), SeedInv st →
      SeedInv (l.foldl addSitemapUrl st) ∧
      (l.foldl addSitemapUrl st).discovered.length ≤ st.discovered.length + l.length := by
  intro l
  induction l with
  | nil => intro st h; exact ⟨h, by simp⟩
  | cons x xs ih =>
    intro st h
    simp only [List.foldl_cons, List.length_cons]
    obtain ⟨h1, h2⟩ := addSitemapUrl_seedInv st x h
    obtain ⟨h3, h4⟩ := ih (addSitemapUrl st x) h1
    exact ⟨h3, by omega⟩

theorem initState_inv (cfg : SiteCrawlOptionsM) (rules : List String)
    (startUrl : String) (sm : List String) (hN : 1 ≤ cfg.maxPages) :
    CrawlInv cfg rules (initState startUrl sm cfg.maxPages) := by
  obtain ⟨hs, hlen⟩ := foldl_addSitemapUrl_seedInv (sm.take cfg.maxPages)
    (seedState startUrl) (seedState_seedInv startUrl)
  have hlen2 : (sm.take cfg.maxPages).length ≤ cfg.maxPages := List.length_take_le _ _
  have hseed : (seedState startUrl).discovered.length = 1 := rfl
  unfold initState
  refine ⟨hs.discEq, hs.discNodup, ?_, ?_, ?_, ?_, ?_, ?_, ?_, ?_, ?_, ?_⟩
  · rw [hs.pagesNil]
    simp only [List.map_nil, List.nil_append]
    rw [hs.queueEq]
  · rw [hs.pagesNil]
    simp
  · rw [hseed] at hlen
    omega
  · rw [hs.cbNil, hs.pagesNil]
    simp
  · rw [hs.cbNil]
    simp
  · intro _
    rw [hs.cbNil, hs.pagesNil]
    simp
  · rw [hs.fetchedNil]
    simp
  · rw [hs.failedNil]
    simp
  · rw [hs.pagesNil]
    simp
  · rw [hs.harvestedNil]
    simp

theorem crawlSiteState_inv (env : CrawlEnv) (cfg : SiteCrawlOptionsM)
    (startUrl : String) (fuel : Nat) (st : CrawlState) (hN : 1 ≤ cfg.maxPages)
    (h : crawlSiteState env cfg startUrl fuel = some st) :
    CrawlInv cfg (crawlRules env cfg) st := by
  unfold crawlSiteState at h
  cases hp : parseURL startUrl with
  | none => rw [hp] at h; simp at h
  | some p =>
    rw [hp] at h
    injection h with h
    rw [← h]
    exact crawlLoop_inv env cfg (crawlRules env cfg) p.hostname fuel _
      (initState_inv cfg (crawlRules env cfg) startUrl env.sitemapUrls hN)

/-- Claim C1 (budget invariant): every returned crawl result with a valid
budget `maxPages = N ≥ 1` has `crawledPages ≤ N` and `totalPages ≤ 2N`,
whatever links the fetched pages contain. -/
theorem crawlSite_budget (env : CrawlEnv) (cfg : SiteCrawlOptionsM)
    (startUrl : String) (fuel : Nat) (res : SiteCrawlResultM)
    (hN : 1 ≤ cfg.maxPages) (h : crawlSite env cfg startUrl fuel = some res) :
    res.crawledPages ≤ cfg.maxPages ∧ res.totalPages ≤ 2 * cfg.maxPages := by
  unfold crawlSite at h
  cases hp : parseURL startUrl with
  | none => rw [hp] at h; simp at h
  | some p =>
    rw [hp] at h
    cases hst : crawlSiteState env cfg startUrl fuel with
    | none =>
      unfold crawlSiteState at hst
      rw [hp] at hst
      simp at hst
    | some st =>
      rw [hst] at h
      simp only [Option.map_some] at h
      injection h with h
      have hinv := crawlSiteState_inv env cfg startUrl fuel st hN hst
      rw [← h]
      exact ⟨hinv.pagesLe, hinv.discLe⟩

/-- The environment and options of the small concrete crawl used by the
witnesses: one page, every fetch succeeds with no links, no sitemap. -/
def envW : CrawlEnv := ⟨fun _ => some [], none, []⟩

/-- Options of the concrete witness crawl: budget one page, concurrency
one, robots respected. -/
def cfgW : SiteCrawlOptionsM := ⟨1, 1, true⟩

/-- The result of the witness crawl. -/
def resW : SiteCrawlResultM :=
  ⟨"http://a.cm", 1, 1, [], [⟨"http://a.cm/", []⟩]⟩

/-- Witness for C1 on the concrete one-page crawl. -/
theorem crawlSite_budget_witness :
    crawlSite envW cfgW "http://a.cm/" 2 = some resW ∧
    resW.crawledPages ≤ cfgW.maxPages ∧ resW.totalPages ≤ 2 * cfgW.maxPages := by
  have h : crawlSite envW cfgW "http://a.cm/" 2 = some resW := by decide
  exact ⟨h, crawlSite_budget envW cfgW "http://a.cm/" 2 resW (by decide) h⟩

/-- Claim C2 (no duplicate crawl): across seed, sitemap and
link-discovered sources, every URL ever enqueued in a run has a distinct
normalization, and the normalizations of the returned pages are pairwise
distinct. -/
theorem crawlSite_no_duplicate (env : CrawlEnv) (cfg : SiteCrawlOptionsM)
    (startUrl : String) (fuel : Nat) (st : CrawlState) (hN : 1 ≤ cfg.maxPages)
    (h : crawlSiteState env cfg startUrl fuel = some st) :
    (st.enq.map normalizeUrl).Nodup ∧
    (st.pages.map (fun r => normalizeUrl r.url)).Nodup := by
  have hinv := crawlSiteState_inv env cfg startUrl fuel st hN h
  constructor
  · rw [← hinv.discEq]
    exact hinv.discNodup
  · have hsub : (st.pages.map (fun r => normalizeUrl r.url)).Sublist st.discovered :=
      ((List.sublist_append_left _ _).trans hinv.subl)
    exact hinv.discNodup.sublist hsub

/-- The final state of the witness crawl. -/
def stW : CrawlState :=
  ⟨[], ["http://a.cm"], [⟨"http://a.cm/", []⟩], [], ["http://a.cm/"],
   [("http://a.cm/", 1, 1)], [], ["http://a.cm/"]⟩

/-- Witness for C2 on the concrete one-page crawl. -/
theorem crawlSite_no_duplicate_witness :
    crawlSiteState envW cfgW "http://a.cm/" 2 = some stW ∧
    (stW.enq.map normalizeUrl).Nodup ∧
    (stW.pages.map (fun r => normalizeUrl r.url)).Nodup := by
  have h : crawlSiteState envW cfgW "http://a.cm/" 2 = some stW := by decide
  exact ⟨h, crawlSite_no_duplicate envW cfgW "http://a.cm/" 2 stW (by decide) h⟩

/-- The two-page environment of the C5 counterexample: the seed plus one
sitemap URL, both fetching successfully, crawled with concurrency two. -/
def envC : CrawlEnv := ⟨fun _ => some [], none, ["http://a.cm/b"]⟩

/-- Options of the counterexample crawl: budget ten, concurrency two. -/
def cfgC : SiteCrawlOptionsM := ⟨10, 2, true⟩

/-- Counterexample to claim C5 as stated: with concurrency two, both pages
of the first batch observe the pre-batch crawled count, so both callbacks
receive index 1 — the indices are `[1, 1]` for two crawled pages, not the
distinct consecutive `[1, 2]`. -/
theorem crawlSite_callback_indices_counterexample :
    (crawlSiteState envC cfgC "http://a.cm/" 3).map
      (fun st => st.cbTrace.map (fun e => e.2.1)) = some [1, 1] ∧
    (crawlSiteState envC cfgC "http://a.cm/" 3).map
      (fun st => st.pages.length) = some 2 ∧
    ¬ ([1, 1] : List Nat).Nodup := by
  exact ⟨by decide, by decide, by decide⟩

/-- Claim C5, amended: `onPageCrawled` fires exactly once per successfully
crawled page — the callback URLs are exactly the page URLs in order — and
never for a skipped or failed URL; every invocation carries the configured
`maxPages`; each invocation's index is one plus the number of pages
recorded before its batch, so the indices are the distinct consecutive
`1, 2, ..., crawledPages` when `concurrency = 1`. -/
theorem crawlSite_progress_callback (env : CrawlEnv) (cfg : SiteCrawlOptionsM)
    (startUrl : String) (fuel : Nat) (st : CrawlState) (hN : 1 ≤ cfg.maxPages)
    (h : crawlSiteState env cfg startUrl fuel = some st) :
    st.cbTrace.map (fun e => e.1) = st.pages.map (fun r => r.url) ∧
    (∀ e ∈ st.cbTrace, e.2.2 = cfg.maxPages) ∧
    (cfg.concurrency = 1 →
      st.cbTrace.map (fun e => e.2.1) = List.range' 1 st.pages.length) := by
  have hinv := crawlSiteState_inv env cfg startUrl fuel st hN h
  exact ⟨hinv.cbUrls, hinv.cbMax, hinv.cbSeq⟩

/-- Witness for the amended C5 on the concrete one-page crawl with
concurrency one. -/
theorem crawlSite_progress_callback_witness :
    crawlSiteState envW cfgW "http://a.cm/" 2 = some stW ∧
    stW.cbTrace.map (fun e => e.1) = stW.pages.map (fun r => r.url) ∧
    stW.cbTrace.map (fun e => e.2.1) = List.range' 1 stW.pages.length := by
  have h : crawlSiteState envW cfgW "http://a.cm/" 2 = some stW := by decide
  have hm := crawlSite_progress_callback envW cfgW "http://a.cm/" 2 stW (by decide) h
  exact ⟨h, hm.1, hm.2.2 (by decide)⟩

/-- Claim C8 (silent exclusion): a URL rejected by the exclusion filter is
never fetched, never recorded as failed, never appears among the returned
pages, and every link-discovered URL pushed to the queue passed the
filter at harvest time. -/
theorem crawlSite_silent_exclusion (env : CrawlEnv) (cfg : SiteCrawlOptionsM)
    (startUrl : String) (fuel : Nat) (st : CrawlState) (u : String)
    (hN : 1 ≤ cfg.maxPages) (h : crawlSiteState env cfg startUrl fuel = some st)
    (hu : isUrlDisallowed u (crawlRules env cfg) = true) :
    u ∉ st.fetched ∧ u ∉ st.failed ∧ (∀ r ∈ st.pages, r.url ≠ u) ∧
    ∀ v ∈ st.harvested, isUrlDisallowed v (crawlRules env cfg) = false := by
  have hinv := crawlSiteState_inv env cfg startUrl fuel st hN h
  refine ⟨?_, ?_, ?_, hinv.harvestedOk⟩
  · intro hmem
    rw [hinv.fetchedOk u hmem] at hu
    exact Bool.false_ne_true hu
  · intro hmem
    rw [hinv.failedOk u hmem] at hu
    exact Bool.false_ne_true hu
  · intro r hr he
    rw [← he] at hu
    rw [hinv.pagesOk r hr] at hu
    exact Bool.false_ne_true hu

/-- The witness environment for C8: robots.txt disallows `/private`. -/
def envW8 : CrawlEnv :=
  ⟨fun _ => some [], some "User-agent: *\nDisallow: /private", []⟩

/-- Witness for C8: on a crawl whose rule set disallows `/private`, the
disallowed URL is in neither the fetched nor the failed list. -/
theorem crawlSite_silent_exclusion_witness :
    crawlSiteState envW8 cfgW "http://a.cm/" 2 = some stW ∧
    isUrlDisallowed "http://a.cm/private/x" (crawlRules envW8 cfgW) = true ∧
    "http://a.cm/private/x" ∉ stW.fetched ∧ "http://a.cm/private/x" ∉ stW.failed := by
  have h : crawlSiteState envW8 cfgW "http://a.cm/" 2 = some stW := by decide
  have hd : isUrlDisallowed "http://a.cm/private/x" (crawlRules envW8 cfgW) = true := by
    decide
  have hm := crawlSite_silent_exclusion envW8 cfgW "http://a.cm/" 2 stW
    "http://a.cm/private/x" (by decide) h hd
  exact ⟨h, hd, hm.1, hm.2.1⟩
